import Mathlib

/-!
Verification of the table-migration reconciliation engine
(`databricks/labs/ucx/hive_metastore/table_migration_status.py`).

The Python source is shallowly embedded: each method becomes a total Lean
function over explicit data, Python dictionaries become association lists
whose lookup takes the most recent binding (assignment overwrites), Python
exceptions become explicit outcome types (`Except` / outcome inductives),
and the remote collaborators (metadata store, SQL backend, table inventory)
become explicit oracle parameters.
-/

/-! ## String utilities modelling Python primitives -/

/-- Models the Python `str.lower()` used throughout the source (ASCII range,
matching the character transformation of `Char.toLower`). -/
def pyLower (s : String) : String := ⟨s.data.map Char.toLower⟩

/-- Does the list `needle` occur as a contiguous segment of `hay`?
Models the Python `needle in hay` substring test on strings. -/
def segOccurs (needle : List Char) : List Char → Bool
  | [] => needle.isEmpty
  | c :: rest => needle.isPrefixOf (c :: rest) || segOccurs needle rest

/-- Python `needle in hay` for strings. -/
def pyIn (needle hay : String) : Bool := segOccurs needle.data hay.data

/-- Split a character list at every occurrence of `sep`.
Always returns a non-empty list of (possibly empty) groups. -/
def splitChar (sep : Char) : List Char → List (List Char)
  | [] => [[]]
  | c :: rest =>
    if c = sep then [] :: splitChar sep rest
    else
      match splitChar sep rest with
      | [] => [[c]]
      | g :: gs => (c :: g) :: gs

/-- Python `s.split(".")`. -/
def pySplitDot (s : String) : List String :=
  (splitChar '.' s.data).map (fun l => String.mk l)

/-- Python dictionary built by a sequence of assignments, read back:
the *last* binding for a key wins, mirroring `d[k] = v` overwriting. -/
def dictGet {α β : Type} [DecidableEq α] : List (α × β) → α → Option β
  | [], _ => none
  | (k, v) :: rest, q =>
    match dictGet rest q with
    | some w => some w
    | none => if k = q then some v else none

/-- First-match association lookup; models reading a Python dictionary whose
keys are unique (such as a table's `properties` mapping). -/
def assocGet {α β : Type} [DecidableEq α] : List (α × β) → α → Option β
  | [], _ => none
  | (k, v) :: rest, q => if k = q then some v else assocGet rest q

/-! ## Data model: `TableMigrationStatus` -/

/-- The persisted migration-status record (`TableMigrationStatus` dataclass).
Optional fields are `Option String`, mirroring the `str | None` fields. -/
structure TableMigrationStatus where
  src_schema : String
  src_table : String
  dst_catalog : Option String := none
  dst_schema : Option String := none
  dst_table : Option String := none
  update_ts : Option String := none
deriving DecidableEq

/-- Python f-string interpolation of an optional string: `None` renders as
the four-character text `None`. -/
def pyStrOfOpt : Option String → String
  | none => "None"
  | some s => s

/-- `TableMigrationStatus.destination`:
`f"{self.dst_catalog}.{self.dst_schema}.{self.dst_table}".lower()`. -/
def TableMigrationStatus.destination (r : TableMigrationStatus) : String :=
  pyLower (pyStrOfOpt r.dst_catalog ++ "." ++ pyStrOfOpt r.dst_schema ++ "." ++ pyStrOfOpt r.dst_table)

/-! ## `TableMigrationIndex`

The Python constructor builds `{(ms.src_schema, ms.src_table): ms for ms in
tables}` — note the keys are taken from the records *unmodified*, while the
lookups below lower-case the caller's arguments. The index is modelled by
the record list itself; `dictGet` over the keyed pairs models the built
dictionary (a comprehension is a sequence of assignments, last one wins). -/

/-- The `(key, record)` pairs the constructor feeds into the dictionary. -/
def indexPairs (tables : List TableMigrationStatus) : List ((String × String) × TableMigrationStatus) :=
  tables.map (fun ms => ((ms.src_schema, ms.src_table), ms))

/-- `TableMigrationIndex.get`: look up the lower-cased key; a missing entry
or a falsy `dst_table` (absent or empty string) yields `none`. -/
def TableMigrationIndex.get (tables : List TableMigrationStatus) (schema tbl : String) :
    Option TableMigrationStatus :=
  match dictGet (indexPairs tables) (pyLower schema, pyLower tbl) with
  | none => none
  | some dst =>
    match dst.dst_table with
    | none => none
    | some s => if s = "" then none else some dst

/-- `TableMigrationIndex.is_migrated`: `self.get(schema, table) is not None`. -/
def TableMigrationIndex.is_migrated (tables : List TableMigrationStatus) (schema tbl : String) : Bool :=
  (TableMigrationIndex.get tables schema tbl).isSome

/-- Truthiness of the destination-table field: set *and* non-empty.
(`not dst.dst_table` in Python is true both for `None` and for `""`.) -/
def TableMigrationStatus.dstTruthy (r : TableMigrationStatus) : Bool :=
  match r.dst_table with
  | none => false
  | some s => decide (s ≠ "")

/-! ## Character/string lemmas -/

theorem charToLower_toNat {n : Nat} (h1 : 65 ≤ n) (h2 : n ≤ 90) :
    (Char.ofNat (n + 32)).toNat = n + 32 := by
  have hv : Nat.isValidChar (n + 32) := by left; omega
  unfold Char.ofNat
  rw [dif_pos hv]
  unfold Char.ofNatAux Char.toNat
  rfl

theorem charToLower_idem (c : Char) : Char.toLower (Char.toLower c) = Char.toLower c := by
  unfold Char.toLower
  by_cases h : c.toNat ≥ 65 ∧ c.toNat ≤ 90
  · rw [if_pos h]
    have ht : (Char.ofNat (c.toNat + 32)).toNat = c.toNat + 32 := charToLower_toNat h.1 h.2
    rw [if_neg]
    rw [ht]
    omega
  · rw [if_neg h, if_neg h]

theorem pyLower_idem (s : String) : pyLower (pyLower s) = pyLower s := by
  cases s with
  | mk data =>
    show String.mk ((data.map Char.toLower).map Char.toLower) = String.mk (data.map Char.toLower)
    rw [List.map_map]
    exact congrArg String.mk (List.map_congr_left (fun c _ => charToLower_idem c))

theorem pyLower_append (s t : String) : pyLower (s ++ t) = pyLower s ++ pyLower t := by
  cases s with
  | mk a =>
    cases t with
    | mk b =>
      show String.mk ((String.mk a ++ String.mk b).data.map Char.toLower) = _
      rw [String.data_append]
      show String.mk ((a ++ b).map Char.toLower) = String.mk (a.map Char.toLower) ++ String.mk (b.map Char.toLower)
      rw [List.map_append]
      rfl

/-! ## Dictionary lemmas -/

theorem dictGet_eq_none_of_not_key {α β : Type} [DecidableEq α] {ps : List (α × β)} {k : α}
    (h : k ∉ ps.map Prod.fst) : dictGet ps k = none := by
  induction ps with
  | nil => rfl
  | cons p rest ih =>
    obtain ⟨a, b⟩ := p
    simp only [List.map_cons, List.mem_cons] at h
    push_neg at h
    simp only [dictGet, ih h.2]
    rw [if_neg (fun hc => h.1 hc.symm)]

theorem dictGet_mem {α β : Type} [DecidableEq α] {ps : List (α × β)} {k : α} {v : β}
    (h : dictGet ps k = some v) : (k, v) ∈ ps := by
  induction ps with
  | nil => simp [dictGet] at h
  | cons p rest ih =>
    obtain ⟨a, b⟩ := p
    simp only [dictGet] at h
    cases hr : dictGet rest k with
    | some w =>
      rw [hr] at h
      cases h
      exact List.mem_cons_of_mem _ (ih hr)
    | none =>
      rw [hr] at h
      by_cases hk : a = k
      · rw [if_pos hk] at h
        cases h
        subst hk
        exact List.mem_cons_self _ _
      · rw [if_neg hk] at h
        cases h

theorem dictGet_of_nodup_mem {α β : Type} [DecidableEq α] {ps : List (α × β)}
    (hn : (ps.map Prod.fst).Nodup) {k : α} {v : β} (hm : (k, v) ∈ ps) :
    dictGet ps k = some v := by
  induction ps with
  | nil => cases hm
  | cons p rest ih =>
    obtain ⟨a, b⟩ := p
    rw [List.map_cons, List.nodup_cons] at hn
    cases hm with
    | head =>
      have hnone : dictGet rest k = none := dictGet_eq_none_of_not_key hn.1
      simp only [dictGet, hnone]
      simp
    | tail _ hm =>
      have := ih hn.2 hm
      simp only [dictGet, this]

/-! ## Claim C1: index invariant over its records -/

/-- Concrete record whose source identity is not lower-case. -/
def cexRecordC1 : TableMigrationStatus :=
  ⟨"A", "t", some "c", some "s", some "x", none⟩

/-- C1 counterexample: the index stores keys exactly as they appear on the
records, while lookups lower-case the arguments. For a record whose source
schema is "A", the built index reports it as *not* migrated even though its
destination table is set — refuting the claimed invariant for arbitrary
record collections. -/
theorem index_record_invariant_cex :
    cexRecordC1.dst_table ≠ none
    ∧ TableMigrationIndex.is_migrated [cexRecordC1] cexRecordC1.src_schema cexRecordC1.src_table = false := by
  decide

/-- C1 (amended): for every collection of records whose source identities
are already lower-case (as the refresher emits them) and whose source keys
are pairwise distinct, the index satisfies
`is_migrated r.src_schema r.src_table = (r.dst_table is set to a non-empty
name)` for each record `r` of the collection. -/
theorem index_record_invariant_amended (tables : List TableMigrationStatus)
    (hlow : ∀ r ∈ tables, pyLower r.src_schema = r.src_schema ∧ pyLower r.src_table = r.src_table)
    (hnodup : (tables.map (fun r => (r.src_schema, r.src_table))).Nodup) :
    ∀ r ∈ tables, TableMigrationIndex.is_migrated tables r.src_schema r.src_table = r.dstTruthy := by
  intro r hr
  have hkeys : (indexPairs tables).map Prod.fst = tables.map (fun r => (r.src_schema, r.src_table)) := by
    simp [indexPairs, List.map_map, Function.comp]
  have hmem : ((r.src_schema, r.src_table), r) ∈ indexPairs tables :=
    List.mem_map_of_mem _ hr
  have hget : dictGet (indexPairs tables) (r.src_schema, r.src_table) = some r := by
    apply dictGet_of_nodup_mem _ hmem
    rw [hkeys]; exact hnodup
  have hl := hlow r hr
  unfold TableMigrationIndex.is_migrated TableMigrationIndex.get
  rw [hl.1, hl.2, hget]
  show (match r.dst_table with
        | none => none
        | some s => if s = "" then none else some r).isSome = r.dstTruthy
  unfold TableMigrationStatus.dstTruthy
  cases r.dst_table with
  | none => rfl
  | some s =>
    by_cases hs : s = "" <;> simp [hs]

/-- C1 amended witness at a concrete lower-cased record. -/
theorem index_record_invariant_amended_witness :
    TableMigrationIndex.is_migrated [(⟨"s", "t", some "c", some "d", some "x", none⟩ : TableMigrationStatus)] "s" "t" = TableMigrationStatus.dstTruthy ⟨"s", "t", some "c", some "d", some "x", none⟩ :=
  index_record_invariant_amended _ (by decide) (by decide) ⟨"s", "t", some "c", some "d", some "x", none⟩ (by decide)

/-! ## Claim C5: when `get` is absent -/

/-- C5: `get` returns absent both when the lower-cased key is unknown and
when it is known but the record's destination table field is unset; and
`get` returns a record only when the key is known and its destination table
field is set. -/
theorem index_get_absent_cases (tables : List TableMigrationStatus) (schema tbl : String) :
    (dictGet (indexPairs tables) (pyLower schema, pyLower tbl) = none →
      TableMigrationIndex.get tables schema tbl = none)
    ∧ (∀ r, dictGet (indexPairs tables) (pyLower schema, pyLower tbl) = some r →
        r.dst_table = none → TableMigrationIndex.get tables schema tbl = none)
    ∧ (∀ r, TableMigrationIndex.get tables schema tbl = some r →
        dictGet (indexPairs tables) (pyLower schema, pyLower tbl) = some r ∧ r.dst_table ≠ none) := by
  refine ⟨?_, ?_, ?_⟩
  · intro h
    unfold TableMigrationIndex.get
    rw [h]
  · intro r h hdt
    unfold TableMigrationIndex.get
    rw [h]
    show (match r.dst_table with
          | none => none
          | some s => if s = "" then none else some r) = none
    rw [hdt]
  · intro r h
    unfold TableMigrationIndex.get at h
    cases hd : dictGet (indexPairs tables) (pyLower schema, pyLower tbl) with
    | none => rw [hd] at h; cases h
    | some q =>
      rw [hd] at h
      revert h
      show (match q.dst_table with
            | none => none
            | some s => if s = "" then none else some q) = some r → _
      cases hq : q.dst_table with
      | none => intro h; cases h
      | some s =>
        show (if s = "" then none else some q) = some r → _
        by_cases hs : s = ""
        · rw [if_pos hs]; intro h; cases h
        · rw [if_neg hs]
          intro h
          cases h
          exact ⟨rfl, by rw [hq]; exact fun hc => Option.noConfusion hc⟩

/-- C5 witness: unknown key and known-but-unmigrated key both yield absent. -/
theorem index_get_absent_cases_witness :
    TableMigrationIndex.get [] "s" "t" = none
    ∧ TableMigrationIndex.get [(⟨"s", "t", none, none, none, none⟩ : TableMigrationStatus)] "s" "t" = none :=
  ⟨(index_get_absent_cases [] "s" "t").1 (by decide),
   (index_get_absent_cases [(⟨"s", "t", none, none, none, none⟩ : TableMigrationStatus)] "s" "t").2.1
     ⟨"s", "t", none, none, none, none⟩ (by decide) rfl⟩

/-! ## Claim C8: case-insensitive lookups -/

/-- C8: both index lookups are case-insensitive in the caller's arguments —
the result at `(schema, tbl)` coincides with the result at the lower-cased
pair, for every index and every pair of strings. -/
theorem index_lookup_case_insensitive (tables : List TableMigrationStatus) (schema tbl : String) :
    TableMigrationIndex.is_migrated tables schema tbl
      = TableMigrationIndex.is_migrated tables (pyLower schema) (pyLower tbl)
    ∧ TableMigrationIndex.get tables schema tbl
      = TableMigrationIndex.get tables (pyLower schema) (pyLower tbl) := by
  have hget : TableMigrationIndex.get tables schema tbl
      = TableMigrationIndex.get tables (pyLower schema) (pyLower tbl) := by
    unfold TableMigrationIndex.get
    rw [pyLower_idem, pyLower_idem]
  exact ⟨by unfold TableMigrationIndex.is_migrated; rw [hget], hget⟩

/-! ## Claim C10: empty-string destination table treated as unset -/

/-- C10: a record whose destination table field is the empty string is
treated exactly like an unset one — `get` on its key is absent and
`is_migrated` is false. -/
theorem empty_dst_table_absent (tables : List TableMigrationStatus) (schema tbl : String)
    (r : TableMigrationStatus)
    (h : dictGet (indexPairs tables) (pyLower schema, pyLower tbl) = some r)
    (he : r.dst_table = some "") :
    TableMigrationIndex.get tables schema tbl = none
    ∧ TableMigrationIndex.is_migrated tables schema tbl = false := by
  have hg : TableMigrationIndex.get tables schema tbl = none := by
    unfold TableMigrationIndex.get
    rw [h]
    show (match r.dst_table with
          | none => none
          | some s => if s = "" then none else some r) = none
    rw [he]
    simp
  exact ⟨hg, by unfold TableMigrationIndex.is_migrated; rw [hg]; rfl⟩

/-- C10 witness: a concrete index whose single record has destination
catalog and schema set but an empty destination table name. -/
theorem empty_dst_table_absent_witness :
    TableMigrationIndex.get [(⟨"s", "t", some "c", some "d", some "", none⟩ : TableMigrationStatus)] "s" "t" = none
    ∧ TableMigrationIndex.is_migrated [(⟨"s", "t", some "c", some "d", some "", none⟩ : TableMigrationStatus)] "s" "t" = false :=
  empty_dst_table_absent _ "s" "t" ⟨"s", "t", some "c", some "d", some "", none⟩ (by decide) rfl

/-! ## Claim C9: the derived destination identity -/

/-- Lower-cased rendering of one optional destination component as the
Python interpolation followed by `.lower()` produces it: a missing field
renders as the text `none` (the interpolated `None` after lower-casing). -/
def pyLowOpt : Option String → String
  | none => "none"
  | some s => pyLower s

/-- C9 counterexample: the whole interpolated identity is lower-cased, so a
record with unset destination fields renders them as `none`, not as the
literal `None` claimed — the capital-N marker never occurs in the result. -/
theorem destination_none_marker_cex :
    TableMigrationStatus.destination ⟨"s", "t", none, none, none, none⟩ = "none.none.none"
    ∧ pyIn "None" (TableMigrationStatus.destination ⟨"s", "t", none, none, none, none⟩) = false := by
  decide

/-- C9 (amended): with all three destination fields set the identity is the
lower-cased dotted `catalog.schema.table`; in general each missing field
contributes the lower-cased marker `none` in its place (so an all-empty
destination yields `none.none.none`, not a usable identity, and carries the
marker in lower case because the interpolated `None` text is itself
lower-cased). -/
theorem destination_formats :
    (∀ a b c s t u, TableMigrationStatus.destination ⟨s, t, some a, some b, some c, u⟩
        = pyLower (a ++ "." ++ b ++ "." ++ c))
    ∧ (∀ r : TableMigrationStatus,
        r.destination = pyLowOpt r.dst_catalog ++ "." ++ pyLowOpt r.dst_schema ++ "." ++ pyLowOpt r.dst_table)
    ∧ (∀ s t u, TableMigrationStatus.destination ⟨s, t, none, none, none, u⟩ = "none.none.none") := by
  have hdot : pyLower "." = "." := by decide
  have hnone : pyLower "None" = "none" := by decide
  have hgen : ∀ r : TableMigrationStatus,
      r.destination = pyLowOpt r.dst_catalog ++ "." ++ pyLowOpt r.dst_schema ++ "." ++ pyLowOpt r.dst_table := by
    intro r
    unfold TableMigrationStatus.destination
    rw [pyLower_append, pyLower_append, pyLower_append, pyLower_append, hdot]
    have hopt : ∀ o : Option String, pyLower (pyStrOfOpt o) = pyLowOpt o := by
      intro o
      cases o with
      | none => exact hnone
      | some s => rfl
    rw [hopt, hopt, hopt]
  refine ⟨?_, hgen, ?_⟩
  · intro a b c s t u
    rw [hgen ⟨s, t, some a, some b, some c, u⟩]
    rw [pyLower_append, pyLower_append, pyLower_append, pyLower_append, hdot]
    rfl
  · intro s t u
    rw [hgen ⟨s, t, none, none, none, u⟩]
    rfl

/-! ## `TableMigrationStatusRefresher.is_migrated` — the live probe

The probe issues `SHOW TBLPROPERTIES <schema.table> ('upgraded_to')` against
the legacy store. The embedding abstracts the backend call into its
observable outcome: the object vanished (`NotFound`, the only exception the
source catches), any other remote error (which the source does *not* catch),
or a successful list of result-row `value` strings. -/

/-- Outcome of one legacy-store property query. -/
inductive FetchOutcome where
  | notFound
  | dbError
  | ok (rows : List String)
deriving DecidableEq

/-- One result row reports the marker as absent when its value contains the
text used by the legacy store, as tested by the Python `in` operator. -/
def rowSaysAbsent (v : String) : Bool := pyIn "does not have property" v

/-- The row loop of the probe: skip rows reporting the property as absent,
return true at the first row that does not. -/
def scanRows : List String → Bool
  | [] => false
  | v :: rest => if rowSaysAbsent v then scanRows rest else true

/-- `TableMigrationStatusRefresher.is_migrated`: `NotFound` is converted to
`true` (vanished source counts as migrated); any other remote error is not
caught and propagates (`Except.error`); otherwise the row scan decides. -/
def TableMigrationStatusRefresher.is_migrated (o : FetchOutcome) : Except Unit Bool :=
  match o with
  | .notFound => .ok true
  | .dbError => .error ()
  | .ok rows => .ok (scanRows rows)

/-! ## Claim C2: the three probe cases -/

/-- C2: the live single-table check yields true on not-found, false when the
query succeeds and every returned row reports the marker as absent, and true
when the query succeeds and some row carries the marker. -/
theorem live_probe_cases :
    TableMigrationStatusRefresher.is_migrated FetchOutcome.notFound = Except.ok true
    ∧ (∀ rows, (∀ v ∈ rows, rowSaysAbsent v = true) →
        TableMigrationStatusRefresher.is_migrated (FetchOutcome.ok rows) = Except.ok false)
    ∧ (∀ rows v, v ∈ rows → rowSaysAbsent v = false →
        TableMigrationStatusRefresher.is_migrated (FetchOutcome.ok rows) = Except.ok true) := by
  have habs : ∀ rows, (∀ v ∈ rows, rowSaysAbsent v = true) → scanRows rows = false := by
    intro rows h
    induction rows with
    | nil => rfl
    | cons v rest ih =>
      have hv := h v (List.mem_cons_self _ _)
      show (if rowSaysAbsent v then scanRows rest else true) = false
      rw [hv]
      exact ih (fun w hw => h w (List.mem_cons_of_mem _ hw))
  have hpres : ∀ rows v, v ∈ rows → rowSaysAbsent v = false → scanRows rows = true := by
    intro rows
    induction rows with
    | nil => intro v hv; cases hv
    | cons w rest ih =>
      intro v hv hm
      show (if rowSaysAbsent w then scanRows rest else true) = true
      by_cases hw : rowSaysAbsent w = true
      · rw [hw]
        simp only [if_pos]
        cases hv with
        | head => rw [hw] at hm; cases hm
        | tail _ hv => exact ih v hv hm
      · rw [Bool.not_eq_true] at hw
        rw [hw]
        rfl
  refine ⟨rfl, ?_, ?_⟩
  · intro rows h
    show Except.ok (scanRows rows) = Except.ok false
    rw [habs rows h]
  · intro rows v hv hm
    show Except.ok (scanRows rows) = Except.ok true
    rw [hpres rows v hv hm]

/-- C2 witness: a concrete absent-marker row yields false, a concrete
marker-bearing row yields true. -/
theorem live_probe_cases_witness :
    TableMigrationStatusRefresher.is_migrated
      (FetchOutcome.ok ["Table x.y does not have property: upgraded_to"]) = Except.ok false
    ∧ TableMigrationStatusRefresher.is_migrated
      (FetchOutcome.ok ["main.sales.orders"]) = Except.ok true :=
  ⟨live_probe_cases.2.1 ["Table x.y does not have property: upgraded_to"] (by decide),
   live_probe_cases.2.2 ["main.sales.orders"] "main.sales.orders" (by decide) (by decide)⟩

/-! ## `TableMigrationStatusRefresher._crawl` -/

/-- Modelled from the spec: the legacy Table Inventory descriptor (spec §6),
`{schema_name, table_name, fully_qualified_key}`. The inventory crawler
itself (`TablesCrawler` / `Table`) is an external collaborator whose code is
not part of this subsystem; only these three attributes are consumed by
`_crawl` (`table.database`, `table.name`, `table.key`). -/
structure LegacyTable where
  database : String
  name : String
  key : String
deriving DecidableEq

/-- The per-table body of `_crawl`: build the bare record, and populate the
destination fields only when the reverse seen-map has a candidate for the
table key, the live probe confirms migration, and the candidate destination
identity splits into exactly three dot-separated parts. A probe error
propagates. -/
def crawlStep (probe : String → String → FetchOutcome) (reverse_seen : String → Option String)
    (ts : String) (t : LegacyTable) : Except Unit TableMigrationStatus :=
  match reverse_seen t.key with
  | none => Except.ok ⟨pyLower t.database, pyLower t.name, none, none, none, some ts⟩
  | some target =>
    match TableMigrationStatusRefresher.is_migrated (probe (pyLower t.database) (pyLower t.name)) with
    | Except.error e => Except.error e
    | Except.ok false => Except.ok ⟨pyLower t.database, pyLower t.name, none, none, none, some ts⟩
    | Except.ok true =>
      if (pySplitDot target).length = 3 then
        Except.ok ⟨pyLower t.database, pyLower t.name,
          some ((pySplitDot target).getD 0 ""), some ((pySplitDot target).getD 1 ""),
          some ((pySplitDot target).getD 2 ""), some ts⟩
      else
        Except.ok ⟨pyLower t.database, pyLower t.name, none, none, none, some ts⟩

/-- `TableMigrationStatusRefresher._crawl`: one record per inventory table,
in inventory order; the first propagated probe error aborts the generator. -/
def crawl (probe : String → String → FetchOutcome) (reverse_seen : String → Option String)
    (ts : String) : List LegacyTable → Except Unit (List TableMigrationStatus)
  | [] => Except.ok []
  | t :: rest =>
    match crawlStep probe reverse_seen ts t with
    | Except.error e => Except.error e
    | Except.ok r =>
      match crawl probe reverse_seen ts rest with
      | Except.error e => Except.error e
      | Except.ok rs => Except.ok (r :: rs)

/-! ## Claim C3: totality of a refresh pass -/

/-- A collaborator state for the C3 counterexample: the live probe fails
with a generic remote error for every table. -/
def probeErrC3 : String → String → FetchOutcome := fun _ _ => FetchOutcome.dbError

/-- Reverse seen-map holding a candidate match for the single legacy table. -/
def revC3 : String → Option String :=
  fun k => if k = "hive_metastore.db.t" then some "main.db.t" else none

/-- The single-table inventory for the C3 counterexample. -/
def invC3 : List LegacyTable := [⟨"db", "t", "hive_metastore.db.t"⟩]

/-- C3 counterexample: the live probe catches only not-found, so a generic
remote error from the legacy-store property query propagates and the crawl
aborts instead of completing with one record per table. -/
theorem crawl_total_cex : crawl probeErrC3 revC3 "ts" invC3 = Except.error () := rfl

theorem crawlStep_ok (probe : String → String → FetchOutcome) (reverse_seen : String → Option String)
    (ts : String) (t : LegacyTable)
    (h : probe (pyLower t.database) (pyLower t.name) ≠ FetchOutcome.dbError) :
    ∃ r : TableMigrationStatus, crawlStep probe reverse_seen ts t = Except.ok r
      ∧ r.src_schema = pyLower t.database ∧ r.src_table = pyLower t.name ∧ r.update_ts = some ts := by
  have hex : ∃ b, TableMigrationStatusRefresher.is_migrated (probe (pyLower t.database) (pyLower t.name))
      = Except.ok b := by
    cases hp : probe (pyLower t.database) (pyLower t.name) with
    | notFound => exact ⟨true, rfl⟩
    | dbError => exact absurd hp h
    | ok rows => exact ⟨scanRows rows, rfl⟩
  obtain ⟨b, hb⟩ := hex
  cases hc : reverse_seen t.key with
  | none =>
    refine ⟨⟨pyLower t.database, pyLower t.name, none, none, none, some ts⟩, ?_, rfl, rfl, rfl⟩
    simp only [crawlStep, hc]
  | some target =>
    cases b with
    | false =>
      refine ⟨⟨pyLower t.database, pyLower t.name, none, none, none, some ts⟩, ?_, rfl, rfl, rfl⟩
      simp only [crawlStep, hc, hb]
    | true =>
      by_cases h3 : (pySplitDot target).length = 3
      · refine ⟨⟨pyLower t.database, pyLower t.name,
          some ((pySplitDot target).getD 0 ""), some ((pySplitDot target).getD 1 ""),
          some ((pySplitDot target).getD 2 ""), some ts⟩, ?_, rfl, rfl, rfl⟩
        simp only [crawlStep, hc, hb, if_pos h3]
      · refine ⟨⟨pyLower t.database, pyLower t.name, none, none, none, some ts⟩, ?_, rfl, rfl, rfl⟩
        simp only [crawlStep, hc, hb, if_neg h3]

/-- C3 (amended): provided every live-probe query either succeeds or fails
with not-found — the probe catches only not-found, so a generic remote error
in the legacy-store property query propagates and aborts the pass — a crawl
completes for every behaviour of the remaining collaborators and yields
exactly one record per inventory table, in order, each carrying that table's
lower-cased identity and the shared timestamp. -/
theorem crawl_total_amended (probe : String → String → FetchOutcome)
    (reverse_seen : String → Option String) (ts : String) (inv : List LegacyTable)
    (h : ∀ s n, probe s n ≠ FetchOutcome.dbError) :
    ∃ recs : List TableMigrationStatus, crawl probe reverse_seen ts inv = Except.ok recs
      ∧ recs.length = inv.length
      ∧ ∀ (i : Nat) (t : LegacyTable), inv[i]? = some t →
          ∃ r : TableMigrationStatus, recs[i]? = some r
            ∧ r.src_schema = pyLower t.database ∧ r.src_table = pyLower t.name
            ∧ r.update_ts = some ts := by
  induction inv with
  | nil =>
    refine ⟨[], rfl, rfl, ?_⟩
    intro i t ht
    simp at ht
  | cons t rest ih =>
    obtain ⟨r, hstep, hss, hst, hts⟩ := crawlStep_ok probe reverse_seen ts t (h _ _)
    obtain ⟨recs, hcrawl, hlen, hidx⟩ := ih
    refine ⟨r :: recs, ?_, ?_, ?_⟩
    · simp only [crawl, hstep, hcrawl]
    · simp only [List.length_cons, hlen]
    · intro i u hu
      cases i with
      | zero =>
        simp only [List.getElem?_cons_zero] at hu
        cases hu
        exact ⟨r, by simp, hss, hst, hts⟩
      | succ j =>
        simp only [List.getElem?_cons_succ] at hu ⊢
        exact hidx j u hu

/-- Error-free collaborators for the C3 witness. -/
def probeOkC3 : String → String → FetchOutcome := fun _ _ => FetchOutcome.ok []

/-- Empty reverse seen-map for the C3 witness. -/
def revNoneC3 : String → Option String := fun _ => none

/-- Inventory for the C3 witness. -/
def invOkC3 : List LegacyTable := [⟨"DB", "T", "K"⟩]

/-- C3 amended witness at a concrete error-free collaborator state. -/
theorem crawl_total_amended_witness :
    ∃ recs : List TableMigrationStatus, crawl probeOkC3 revNoneC3 "1" invOkC3 = Except.ok recs
      ∧ recs.length = invOkC3.length
      ∧ ∀ (i : Nat) (t : LegacyTable), invOkC3[i]? = some t →
          ∃ r : TableMigrationStatus, recs[i]? = some r
            ∧ r.src_schema = pyLower t.database ∧ r.src_table = pyLower t.name
            ∧ r.update_ts = some "1" :=
  crawl_total_amended probeOkC3 revNoneC3 "1" invOkC3
    (by intro s n hc; simp [probeOkC3] at hc)

/-! ## Claim C4: malformed destination identity -/

/-- C4: when a bulk-scan candidate exists for the table and the live probe
confirms migration, a destination identity that does not split into exactly
three dot-separated parts leaves the emitted record unmigrated; destination
fields are populated only when the identity has exactly three parts, and
then in the order (catalog, schema, table). -/
theorem malformed_destination_unmigrated (probe : String → String → FetchOutcome)
    (reverse_seen : String → Option String) (ts : String) (t : LegacyTable) (target : String)
    (hc : reverse_seen t.key = some target)
    (hm : TableMigrationStatusRefresher.is_migrated (probe (pyLower t.database) (pyLower t.name))
        = Except.ok true) :
    ((pySplitDot target).length ≠ 3 →
      crawlStep probe reverse_seen ts t
        = Except.ok ⟨pyLower t.database, pyLower t.name, none, none, none, some ts⟩)
    ∧ (∀ r : TableMigrationStatus, crawlStep probe reverse_seen ts t = Except.ok r →
        r.dst_table ≠ none →
        (pySplitDot target).length = 3
        ∧ r.dst_catalog = some ((pySplitDot target).getD 0 "")
        ∧ r.dst_schema = some ((pySplitDot target).getD 1 "")
        ∧ r.dst_table = some ((pySplitDot target).getD 2 "")) := by
  constructor
  · intro h3
    simp only [crawlStep, hc, hm, if_neg h3]
  · intro r hr hdt
    by_cases h3 : (pySplitDot target).length = 3
    · simp only [crawlStep, hc, hm, if_pos h3] at hr
      cases hr
      exact ⟨h3, rfl, rfl, rfl⟩
    · simp only [crawlStep, hc, hm, if_neg h3] at hr
      cases hr
      exact absurd rfl hdt

/-- Candidate map for the C4 witness: a two-part destination identity. -/
def revC4 : String → Option String := fun k => if k = "k" then some "main.orders" else none

/-- Probe for the C4 witness: the source vanished, so the probe confirms. -/
def probeC4 : String → String → FetchOutcome := fun _ _ => FetchOutcome.notFound

/-- C4 witness: with a confirmed candidate whose identity has two parts,
the emitted record carries no destination fields. -/
theorem malformed_destination_unmigrated_witness :
    crawlStep probeC4 revC4 "1" ⟨"db", "t", "k"⟩
      = Except.ok ⟨pyLower "db", pyLower "t", none, none, none, some "1"⟩ :=
  (malformed_destination_unmigrated probeC4 revC4 "1" ⟨"db", "t", "k"⟩ "main.orders"
    (by decide) rfl).1 (by decide)

/-! ## The metadata store and `get_seen_tables`

The store is modelled by the observable outcomes of its three listing
calls. A listing either vanishes (`NotFound`), fails with a generic remote
error, or returns a list; the scan catches both failure kinds at each level
(for the catalogs listing, the generic handler also covers not-found, which
the SDK raises as a subclass of the generic error). -/

/-- Catalog kinds of the metadata store (the ones the source names, plus
representatives of the others). -/
inductive CatalogType where
  | MANAGED_CATALOG
  | DELTASHARING_CATALOG
  | EXTERNAL_CATALOG
  | SYSTEM_CATALOG
deriving DecidableEq

/-- A catalog as returned by the listing: both fields are optional. -/
structure CatalogInfo where
  name : Option String
  catalog_type : Option CatalogType
deriving DecidableEq

/-- A schema as returned by the listing. -/
structure SchemaInfo where
  catalog_name : Option String
  name : Option String
deriving DecidableEq

/-- A table as returned by the listing: `full_name` may be missing and
`properties` may be missing (or an empty mapping, which Python treats as
falsy exactly like a missing one). -/
structure TableInfo where
  name : String
  full_name : Option String
  properties : Option (List (String × String))
deriving DecidableEq

/-- Outcome of one remote listing call. -/
inductive ListOutcome (α : Type) where
  | notFound
  | dbError
  | ok (xs : List α)
deriving DecidableEq

/-- The metadata store: outcome of the catalogs listing, of the schemas
listing per catalog name, and of the tables listing per (catalog, schema)
name pair. -/
structure MetaStore where
  catalogs : ListOutcome CatalogInfo
  schemas : String → ListOutcome SchemaInfo
  tables : String → String → ListOutcome TableInfo

/-- `_skip_catalog_types = {CatalogType.SYSTEM_CATALOG}`. -/
def skipCatalogTypes : List CatalogType := [CatalogType.SYSTEM_CATALOG]

/-- `catalog.catalog_type in self._skip_catalog_types` (a missing type is
not in the set). -/
def catalogSkipped (c : CatalogInfo) : Bool :=
  match c.catalog_type with
  | none => false
  | some t => skipCatalogTypes.contains t

/-- `_iter_catalogs`: an erroring catalogs listing yields nothing (the
generic handler catches every remote error); system catalogs are skipped. -/
def iterCatalogs (w : MetaStore) : List CatalogInfo :=
  match w.catalogs with
  | ListOutcome.ok cs => cs.filter (fun c => !(catalogSkipped c))
  | _ => []

/-- The schemas one catalog contributes in `_iter_schemas`: a nameless
catalog is skipped, and both a vanished catalog and a generic listing error
are caught and skipped. -/
def catSchemas (w : MetaStore) (c : CatalogInfo) : List SchemaInfo :=
  match c.name with
  | none => []
  | some cn =>
    match w.schemas cn with
    | ListOutcome.ok ss => ss
    | _ => []

/-- `_iter_schemas`: all schemas of all retained catalogs. -/
def iterSchemas (w : MetaStore) : List SchemaInfo :=
  (iterCatalogs w).flatMap (catSchemas w)

/-- The seen-map entry one listed table contributes, if any: skipped when
its properties are missing or empty, when they lack the back-reference
`upgraded_from`, or when the table has no (non-empty) full name; otherwise
the assignment `full_name.lower() ↦ properties["upgraded_from"].lower()`. -/
def tableEntry (t : TableInfo) : Option (String × String) :=
  match t.properties with
  | none => none
  | some props =>
    if props.isEmpty then none
    else
      match assocGet props "upgraded_from" with
      | none => none
      | some v =>
        match t.full_name with
        | none => none
        | some fn => if fn = "" then none else some (pyLower fn, pyLower v)

/-- The entries one schema contributes in `get_seen_tables`: skipped when
its catalog name or name is missing, or when its tables listing vanishes or
errors; otherwise one entry per qualifying listed table. -/
def schemaEntries (w : MetaStore) (s : SchemaInfo) : List (String × String) :=
  match s.catalog_name, s.name with
  | some cn, some sn =>
    (match w.tables cn sn with
     | ListOutcome.ok ts => ts.filterMap tableEntry
     | _ => [])
  | _, _ => []

/-- The ordered sequence of dictionary assignments `get_seen_tables`
performs. -/
def seenPairs (w : MetaStore) : List (String × String) :=
  (iterSchemas w).flatMap (schemaEntries w)

/-- `get_seen_tables`, read back as the dictionary the assignments build
(last assignment per key wins). -/
def get_seen_tables (w : MetaStore) (k : String) : Option String :=
  dictGet (seenPairs w) k

/-! ## Chain lemmas for the scan -/

theorem tableEntry_eq {t : TableInfo} {props : List (String × String)} {fn v : String}
    (hp : t.properties = some props) (hne : props ≠ [])
    (hv : assocGet props "upgraded_from" = some v)
    (hfn : t.full_name = some fn) (hfe : fn ≠ "") :
    tableEntry t = some (pyLower fn, pyLower v) := by
  have hie : props.isEmpty = false := List.isEmpty_eq_false.mpr hne
  simp [tableEntry, hp, hie, hv, hfn, hfe]

theorem mem_seenPairs_of_chain (w : MetaStore) {cs : List CatalogInfo} {c : CatalogInfo}
    {cn : String} {ss : List SchemaInfo} {s : SchemaInfo} {scn sn : String}
    {ts : List TableInfo} {t : TableInfo} {e : String × String}
    (hcat : w.catalogs = ListOutcome.ok cs) (hc : c ∈ cs)
    (hskip : catalogSkipped c = false) (hcn : c.name = some cn)
    (hss : w.schemas cn = ListOutcome.ok ss) (hs : s ∈ ss)
    (hscn : s.catalog_name = some scn) (hsn : s.name = some sn)
    (hts : w.tables scn sn = ListOutcome.ok ts) (ht : t ∈ ts)
    (hte : tableEntry t = some e) :
    e ∈ seenPairs w := by
  have hciter : c ∈ iterCatalogs w := by
    simp only [iterCatalogs, hcat]
    exact List.mem_filter.mpr ⟨hc, by rw [hskip]; rfl⟩
  have hsiter : s ∈ iterSchemas w := by
    unfold iterSchemas
    refine List.mem_flatMap.mpr ⟨c, hciter, ?_⟩
    simp only [catSchemas, hcn, hss]
    exact hs
  have hentry : e ∈ schemaEntries w s := by
    simp only [schemaEntries, hscn, hsn, hts]
    exact List.mem_filterMap.mpr ⟨t, ht, hte⟩
  exact List.mem_flatMap.mpr ⟨s, hsiter, hentry⟩

theorem seenPairs_mem_chain (w : MetaStore) {e : String × String} (h : e ∈ seenPairs w) :
    ∃ (cs : List CatalogInfo) (c : CatalogInfo) (cn : String) (ss : List SchemaInfo)
      (s : SchemaInfo) (scn sn : String) (ts : List TableInfo) (t : TableInfo),
      w.catalogs = ListOutcome.ok cs ∧ c ∈ cs ∧ catalogSkipped c = false ∧ c.name = some cn
      ∧ w.schemas cn = ListOutcome.ok ss ∧ s ∈ ss
      ∧ s.catalog_name = some scn ∧ s.name = some sn
      ∧ w.tables scn sn = ListOutcome.ok ts ∧ t ∈ ts ∧ tableEntry t = some e := by
  obtain ⟨s, hs, he⟩ := List.mem_flatMap.mp h
  obtain ⟨c, hc, hcs⟩ := List.mem_flatMap.mp hs
  cases hcat : w.catalogs with
  | notFound => simp only [iterCatalogs, hcat] at hc; cases hc
  | dbError => simp only [iterCatalogs, hcat] at hc; cases hc
  | ok cs =>
    simp only [iterCatalogs, hcat] at hc
    obtain ⟨hcmem, hkeep⟩ := List.mem_filter.mp hc
    have hskip : catalogSkipped c = false := by
      revert hkeep
      cases catalogSkipped c <;> simp
    cases hcn : c.name with
    | none => simp only [catSchemas, hcn] at hcs; cases hcs
    | some cn =>
      cases hss : w.schemas cn with
      | notFound => simp only [catSchemas, hcn, hss] at hcs; cases hcs
      | dbError => simp only [catSchemas, hcn, hss] at hcs; cases hcs
      | ok ss =>
        simp only [catSchemas, hcn, hss] at hcs
        cases hscn : s.catalog_name with
        | none => simp only [schemaEntries, hscn] at he; cases he
        | some scn =>
          cases hsn : s.name with
          | none => simp only [schemaEntries, hscn, hsn] at he; cases he
          | some sn =>
            cases hts : w.tables scn sn with
            | notFound => simp only [schemaEntries, hscn, hsn, hts] at he; cases he
            | dbError => simp only [schemaEntries, hscn, hsn, hts] at he; cases he
            | ok ts =>
              simp only [schemaEntries, hscn, hsn, hts] at he
              obtain ⟨t, ht, hte⟩ := List.mem_filterMap.mp he
              exact ⟨cs, c, cn, ss, s, scn, sn, ts, t, rfl, hcmem, hskip, hcn,
                hss, hcs, hscn, hsn, hts, ht, hte⟩

/-! ## Claim C6: contents of the seen-tables map -/

/-- First qualifying table of the C6 counterexample. -/
def cexTableA : TableInfo := ⟨"t", some "c.s.t", some [("upgraded_from", "a")]⟩

/-- Second qualifying table, same full name, different back-reference. -/
def cexTableB : TableInfo := ⟨"t2", some "c.s.t", some [("upgraded_from", "b")]⟩

/-- C6 counterexample store: one healthy catalog/schema listing two
qualifying tables that share a lower-cased full name. -/
def wCexC6 : MetaStore :=
  ⟨ListOutcome.ok [⟨some "c", some CatalogType.MANAGED_CATALOG⟩],
   fun _ => ListOutcome.ok [⟨some "c", some "s"⟩],
   fun _ _ => ListOutcome.ok [cexTableA, cexTableB]⟩

/-- C6 counterexample: both tables qualify (carry the back-reference and a
full name) and both assignments are performed, but a dictionary holds one
value per key — the later assignment wins, so the map does not contain the
entry contributed by the first qualifying table, contradicting the claim
that it holds the entry of *every* qualifying table. -/
theorem seen_tables_entry_cex :
    tableEntry cexTableA = some ("c.s.t", "a")
    ∧ seenPairs wCexC6 = [("c.s.t", "a"), ("c.s.t", "b")]
    ∧ get_seen_tables wCexC6 "c.s.t" = some "b"
    ∧ get_seen_tables wCexC6 "c.s.t" ≠ some "a" := by
  refine ⟨by decide, by decide, by decide, by decide⟩

/-- C6 (amended): provided the qualifying tables produce pairwise-distinct
lower-cased full names (otherwise the last-scanned one wins), the map built
by the scan contains the entry `full_name.lower() ↦ back_reference.lower()`
for every table reached through a non-skipped catalog and a healthy schema
that carries the non-empty back-reference property and a non-empty full
name; and (unconditionally) every entry of the map originates from such a
table — hence none from system catalogs, from tables lacking the property,
or from tables lacking a full name. -/
theorem seen_tables_entries_amended (w : MetaStore) :
    (((seenPairs w).map Prod.fst).Nodup →
      ∀ (cs : List CatalogInfo) (c : CatalogInfo) (cn : String) (ss : List SchemaInfo)
        (s : SchemaInfo) (scn sn : String) (ts : List TableInfo) (t : TableInfo)
        (props : List (String × String)) (fn v : String),
        w.catalogs = ListOutcome.ok cs → c ∈ cs → catalogSkipped c = false → c.name = some cn →
        w.schemas cn = ListOutcome.ok ss → s ∈ ss →
        s.catalog_name = some scn → s.name = some sn →
        w.tables scn sn = ListOutcome.ok ts → t ∈ ts →
        t.properties = some props → props ≠ [] →
        assocGet props "upgraded_from" = some v →
        t.full_name = some fn → fn ≠ "" →
        get_seen_tables w (pyLower fn) = some (pyLower v))
    ∧ (∀ k v, get_seen_tables w k = some v →
        ∃ (cs : List CatalogInfo) (c : CatalogInfo) (cn : String) (ss : List SchemaInfo)
          (s : SchemaInfo) (scn sn : String) (ts : List TableInfo) (t : TableInfo),
          w.catalogs = ListOutcome.ok cs ∧ c ∈ cs ∧ catalogSkipped c = false ∧ c.name = some cn
          ∧ w.schemas cn = ListOutcome.ok ss ∧ s ∈ ss
          ∧ s.catalog_name = some scn ∧ s.name = some sn
          ∧ w.tables scn sn = ListOutcome.ok ts ∧ t ∈ ts ∧ tableEntry t = some (k, v)) := by
  constructor
  · intro hnodup cs c cn ss s scn sn ts t props fn v
    intro hcat hc hskip hcn hss hs hscn hsn hts ht hp hne hv hfn hfe
    have hte : tableEntry t = some (pyLower fn, pyLower v) := tableEntry_eq hp hne hv hfn hfe
    have hmem : (pyLower fn, pyLower v) ∈ seenPairs w :=
      mem_seenPairs_of_chain w hcat hc hskip hcn hss hs hscn hsn hts ht hte
    exact dictGet_of_nodup_mem hnodup hmem
  · intro k v h
    exact seenPairs_mem_chain w (dictGet_mem h)

/-- Store for the C6 witness: a single qualifying table with an upper-case
full name and back-reference value. -/
def wWitC6 : MetaStore :=
  ⟨ListOutcome.ok [⟨some "c", some CatalogType.MANAGED_CATALOG⟩],
   fun _ => ListOutcome.ok [⟨some "c", some "s"⟩],
   fun _ _ => ListOutcome.ok [⟨"T", some "C.S.T", some [("upgraded_from", "DB.T")]⟩]⟩

/-- C6 amended witness: the single qualifying table's lower-cased entry is
in the map. -/
theorem seen_tables_entries_amended_witness :
    get_seen_tables wWitC6 (pyLower "C.S.T") = some (pyLower "DB.T") :=
  (seen_tables_entries_amended wWitC6).1 (by decide)
    [⟨some "c", some CatalogType.MANAGED_CATALOG⟩] ⟨some "c", some CatalogType.MANAGED_CATALOG⟩
    "c" [⟨some "c", some "s"⟩] ⟨some "c", some "s"⟩ "c" "s"
    [⟨"T", some "C.S.T", some [("upgraded_from", "DB.T")]⟩]
    ⟨"T", some "C.S.T", some [("upgraded_from", "DB.T")]⟩
    [("upgraded_from", "DB.T")] "C.S.T" "DB.T"
    rfl (by decide) rfl rfl rfl (by decide) rfl rfl rfl (by decide)
    rfl (by decide) rfl rfl (by decide)

/-! ## Claim C7: one failing listing only loses its own subtree -/

theorem flatMap_congr_mem {α β : Type} {l : List α} {f g : α → List β}
    (h : ∀ a ∈ l, f a = g a) : l.flatMap f = l.flatMap g := by
  induction l with
  | nil => rfl
  | cons a rest ih =>
    rw [List.flatMap_cons, List.flatMap_cons, h a (List.mem_cons_self _ _),
      ih (fun b hb => h b (List.mem_cons_of_mem _ hb))]

theorem flatMap_eq_filter_flatMap {α β : Type} (l : List α) (p : α → Bool) (f g : α → List β)
    (h : ∀ a ∈ l, (p a = true → g a = f a) ∧ (p a = false → g a = [])) :
    l.flatMap g = (l.filter p).flatMap f := by
  induction l with
  | nil => rfl
  | cons a rest ih =>
    have ha := h a (List.mem_cons_self _ _)
    have hrest := ih (fun b hb => h b (List.mem_cons_of_mem _ hb))
    cases hp : p a with
    | true =>
      rw [List.flatMap_cons, List.filter_cons_of_pos hp, List.flatMap_cons, ha.1 hp, hrest]
    | false =>
      rw [List.flatMap_cons, List.filter_cons_of_neg (by rw [hp]; exact Bool.false_ne_true),
        ha.2 hp, hrest, List.nil_append]

/-- The store with the schemas listing for catalog name `cn` replaced by
outcome `r` (one catalog's schema listing dies). -/
def killSchemas (w : MetaStore) (cn : String) (r : ListOutcome SchemaInfo) : MetaStore :=
  ⟨w.catalogs, fun n => if n = cn then r else w.schemas n, w.tables⟩

/-- The store with the tables listing for `(scn, sn)` replaced by outcome
`r` (one schema's table listing dies). -/
def killTables (w : MetaStore) (scn sn : String) (r : ListOutcome TableInfo) : MetaStore :=
  ⟨w.catalogs, w.schemas, fun c s => if c = scn ∧ s = sn then r else w.tables c s⟩

/-- Is this listing outcome a failure (vanished or generic remote error)? -/
def ListOutcome.isFailure {α : Type} : ListOutcome α → Prop
  | ListOutcome.ok _ => False
  | _ => True

theorem catSchemas_kill_ne {w : MetaStore} {cn : String} {r : ListOutcome SchemaInfo}
    {c : CatalogInfo} (hne : c.name ≠ some cn) :
    catSchemas (killSchemas w cn r) c = catSchemas w c := by
  cases hcn : c.name with
  | none => simp only [catSchemas, hcn]
  | some n =>
    have hn : n ≠ cn := fun h => hne (by rw [hcn, h])
    simp only [catSchemas, hcn, killSchemas, if_neg hn]

theorem catSchemas_kill_eq {w : MetaStore} {cn : String} {r : ListOutcome SchemaInfo}
    {c : CatalogInfo} (heq : c.name = some cn) (hr : r.isFailure) :
    catSchemas (killSchemas w cn r) c = [] := by
  cases r with
  | ok xs => cases hr
  | notFound => simp [catSchemas, heq, killSchemas]
  | dbError => simp [catSchemas, heq, killSchemas]

theorem schemaEntries_kill_match {w : MetaStore} {scn sn : String} {r : ListOutcome TableInfo}
    {s : SchemaInfo} (h1 : s.catalog_name = some scn) (h2 : s.name = some sn)
    (hr : r.isFailure) : schemaEntries (killTables w scn sn r) s = [] := by
  cases r with
  | ok xs => cases hr
  | notFound => simp [schemaEntries, h1, h2, killTables]
  | dbError => simp [schemaEntries, h1, h2, killTables]

theorem schemaEntries_kill_nomatch {w : MetaStore} {scn sn : String} {r : ListOutcome TableInfo}
    {s : SchemaInfo} (h : ¬(s.catalog_name = some scn ∧ s.name = some sn)) :
    schemaEntries (killTables w scn sn r) s = schemaEntries w s := by
  cases hscn : s.catalog_name with
  | none => simp only [schemaEntries, hscn]
  | some x =>
    cases hsn : s.name with
    | none => simp only [schemaEntries, hscn, hsn]
    | some y =>
      have hne : ¬(x = scn ∧ y = sn) := fun hc => h ⟨by rw [hscn, hc.1], by rw [hsn, hc.2]⟩
      simp only [schemaEntries, hscn, hsn, killTables, if_neg hne]

/-- C7: when the schemas listing of one catalog, or the tables listing of
one schema, fails (not-found or generic error), the scan still completes —
the assignment sequence it performs is exactly the one contributed by the
remaining catalogs (resp. remaining schemas), so every entry contributed by
an unaffected catalog is still present. -/
theorem scan_skips_failed_listing (w : MetaStore) (cn scn sn : String)
    (r : ListOutcome SchemaInfo) (r' : ListOutcome TableInfo)
    (hr : r.isFailure) (hr' : r'.isFailure) :
    (seenPairs (killSchemas w cn r)
      = ((iterCatalogs w).filter (fun c => !(c.name == some cn))).flatMap
          (fun c => (catSchemas w c).flatMap (schemaEntries w)))
    ∧ (seenPairs (killTables w scn sn r')
      = (iterSchemas w).flatMap
          (fun s => if s.catalog_name = some scn ∧ s.name = some sn then [] else schemaEntries w s))
    ∧ (∀ c ∈ iterCatalogs w, c.name ≠ some cn →
        ∀ e ∈ (catSchemas w c).flatMap (schemaEntries w), e ∈ seenPairs (killSchemas w cn r)) := by
  have hcats : iterCatalogs (killSchemas w cn r) = iterCatalogs w := rfl
  have hsch : schemaEntries (killSchemas w cn r) = schemaEntries w := rfl
  have hkill1 : seenPairs (killSchemas w cn r)
      = ((iterCatalogs w).filter (fun c => !(c.name == some cn))).flatMap
          (fun c => (catSchemas w c).flatMap (schemaEntries w)) := by
    show ((iterCatalogs (killSchemas w cn r)).flatMap (catSchemas (killSchemas w cn r))).flatMap
        (schemaEntries (killSchemas w cn r)) = _
    rw [List.flatMap_assoc, hcats, hsch]
    apply flatMap_eq_filter_flatMap
    intro c _
    constructor
    · intro hkeep
      have hne : c.name ≠ some cn := by
        intro hc
        rw [hc, beq_self_eq_true, Bool.not_true] at hkeep
        cases hkeep
      rw [catSchemas_kill_ne hne]
    · intro hdrop
      have hceq : c.name = some cn := by
        rw [Bool.not_eq_false', beq_iff_eq] at hdrop
        exact hdrop
      rw [catSchemas_kill_eq hceq hr, List.flatMap_nil]
  refine ⟨hkill1, ?_, ?_⟩
  · have hschemas : iterSchemas (killTables w scn sn r') = iterSchemas w := rfl
    show (iterSchemas (killTables w scn sn r')).flatMap (schemaEntries (killTables w scn sn r')) = _
    rw [hschemas]
    apply flatMap_congr_mem
    intro s _
    by_cases hmatch : s.catalog_name = some scn ∧ s.name = some sn
    · rw [if_pos hmatch, schemaEntries_kill_match hmatch.1 hmatch.2 hr']
    · rw [if_neg hmatch, schemaEntries_kill_nomatch hmatch]
  · intro c hc hne e he
    rw [hkill1]
    refine List.mem_flatMap.mpr ⟨c, ?_, he⟩
    refine List.mem_filter.mpr ⟨hc, ?_⟩
    simp only [Bool.not_eq_true']
    exact beq_eq_false_iff_ne.mpr hne

/-- Store for the C7 witness: two healthy catalogs. -/
def wWitC7 : MetaStore :=
  ⟨ListOutcome.ok [⟨some "dead", some CatalogType.MANAGED_CATALOG⟩,
                   ⟨some "live", some CatalogType.MANAGED_CATALOG⟩],
   fun n => ListOutcome.ok [⟨some n, some "s"⟩],
   fun c _ => ListOutcome.ok [⟨"t", some (c ++ ".s.t"), some [("upgraded_from", "db.t")]⟩]⟩

/-- C7 witness: killing the schema listing of the catalog named dead (with
not-found) leaves exactly the contributions of the remaining catalogs. -/
theorem scan_skips_failed_listing_witness :
    (seenPairs (killSchemas wWitC7 "dead" ListOutcome.notFound)
      = ((iterCatalogs wWitC7).filter (fun c => !(c.name == some "dead"))).flatMap
          (fun c => (catSchemas wWitC7 c).flatMap (schemaEntries wWitC7)))
    ∧ (seenPairs (killTables wWitC7 "dead" "s" ListOutcome.notFound)
      = (iterSchemas wWitC7).flatMap
          (fun s => if s.catalog_name = some "dead" ∧ s.name = some "s" then [] else schemaEntries wWitC7 s))
    ∧ (∀ c ∈ iterCatalogs wWitC7, c.name ≠ some "dead" →
        ∀ e ∈ (catSchemas wWitC7 c).flatMap (schemaEntries wWitC7),
          e ∈ seenPairs (killSchemas wWitC7 "dead" ListOutcome.notFound)) :=
  scan_skips_failed_listing wWitC7 "dead" "dead" "s"
    ListOutcome.notFound ListOutcome.notFound trivial trivial
